import Mathlib

/-!
Verification of the reconciliation-scheduler patterns of the
`eso-design-patterns` repository: a shallow embedding of the Go sources
(refresh gating, rate limiter, commit/rollback state manager, per-key
try-lock, condition updates, informer reference counting, work queue)
together with theorems settling the specification's claims.

Conventions of the embedding:
- `time.Duration` (int64 nanoseconds) is modelled as `Int`; `time.Time` as a
  `Nat` instant, with `0` standing for Go's zero time (`IsZero`).
- Go closures that mutate ambient state (`func() error`) are modelled as pure
  state transformers `s -> s × Option String`, where the `Option String` is the
  returned error (`none` = nil).
- `errors.Join` over an accumulated slice is modelled by the accumulated
  `List String` itself; the empty list stands for the nil error.
- Go maps are modelled as association lists; `sync.Map.LoadOrStore` plus
  `Mutex.TryLock` becomes a lookup-or-insert on a `String → Bool` map of
  held flags.
-/

namespace Guide

/-! ## Pattern 8: refresh gating (src/08_refresh_gating.go) -/

/-- Embeds `ExternalSecretStatus`: `SyncedResourceVersion` and `RefreshTime`
(a `Nat` instant whose `0` models Go's zero `time.Time`). -/
structure ExternalSecretStatus where
  syncedResourceVersion : String
  refreshTime : Nat
deriving DecidableEq

/-- Embeds `ExternalSecretSpec`: `RefreshInterval` (nanoseconds, may be `≤ 0`),
`RefreshPolicy` and `Generation`. -/
structure ExternalSecretSpec where
  refreshInterval : Int
  refreshPolicy : String
  generation : Int
deriving DecidableEq

/-- Embeds `SecretState`: existence flag, managed label, data hash. -/
structure SecretState where
  secretExists : Bool
  hasManagedLabel : Bool
  dataHash : String
deriving DecidableEq

/-- Embeds `shouldRefreshPeriodic` (src/08_refresh_gating.go:93-111); `now` is
the instant at which `time.Since` is evaluated, so `time.Since(RefreshTime)`
becomes `now - refreshTime` over `Int`. -/
def shouldRefreshPeriodic (spec : ExternalSecretSpec) (status : ExternalSecretStatus)
    (currentGeneration : Int) (now : Nat) : Bool :=
  if spec.refreshInterval ≤ 0 ∧ status.syncedResourceVersion ≠ "" then
    false
  else if status.syncedResourceVersion ≠ toString currentGeneration then
    true
  else if status.refreshTime = 0 then
    true
  else
    decide ((now : Int) - (status.refreshTime : Int) ≥ spec.refreshInterval)

/-- Embeds `shouldRefresh` (src/08_refresh_gating.go:61-88): the policy switch
over `"CreatedOnce"`, `"OnChange"` and the periodic default, with
`fmt.Sprint(currentGeneration)` rendered as `toString`. -/
def shouldRefresh (spec : ExternalSecretSpec) (status : ExternalSecretStatus)
    (currentGeneration : Int) (now : Nat) : Bool :=
  if spec.refreshPolicy = "CreatedOnce" then
    if status.syncedResourceVersion = "" ∨ status.refreshTime = 0 then
      true
    else
      false
  else if spec.refreshPolicy = "OnChange" then
    if status.syncedResourceVersion = "" ∨ status.refreshTime = 0 then
      true
    else
      decide (status.syncedResourceVersion ≠ toString currentGeneration)
  else
    shouldRefreshPeriodic spec status currentGeneration now

/-- Embeds `isSecretValidCheck` (src/08_refresh_gating.go:121-140). -/
def isSecretValidCheck (secret : SecretState) (expectedDataHash : String) : Bool :=
  if !secret.secretExists then
    false
  else if !secret.hasManagedLabel then
    false
  else if secret.dataHash ≠ expectedDataHash then
    false
  else
    true

/-- Embeds the reconciler's skip condition
`!shouldRefresh(externalSecret) && isSecretValid(existingSecret, externalSecret)`
(the gating check quoted at src/08_refresh_gating.go:30-35). -/
def skipProviderCall (spec : ExternalSecretSpec) (status : ExternalSecretStatus)
    (currentGeneration : Int) (now : Nat) (secret : SecretState)
    (expectedDataHash : String) : Bool :=
  !shouldRefresh spec status currentGeneration now &&
    isSecretValidCheck secret expectedDataHash

/-- "Never synced" as the source's two checks read it: no synced resource
version recorded, or a zero refresh time. -/
def neverSynced (status : ExternalSecretStatus) : Prop :=
  status.syncedResourceVersion = "" ∨ status.refreshTime = 0

/-! ## Pattern 15: exponential backoff
(src/eso-advanced-patterns/15_custom_rate_limiter.go) -/

/-- Embeds `ExponentialBackoff`; both delays are `time.Duration` nanoseconds. -/
structure ExponentialBackoff where
  baseDelay : Int
  maxDelay : Int
deriving DecidableEq

/-- The smallest int64 value. -/
def int64MinValue : Int := -9223372036854775808

/-- The `time.Duration(...)` conversion applied to the float64 product
`float64(BaseDelay) * math.Pow(2, float64(failures))`, as compiled on amd64.
For `|BaseDelay| < 2^53` the float64 value of the base is exact and scaling
by `2^failures` is exact up to float overflow, so the product is the exact
integer `baseDelay * 2^failures` whenever it is representable; converting it
to int64 is then the identity when the value is in range, while an
out-of-range value (including an overflowed `±Inf`) makes Go's conversion
implementation-defined — on amd64, `cvttsd2si` yields the integer
indefinite, minInt64. -/
def durationOfFloatProduct (product : Int) : Int :=
  if product < -(2 ^ 63) ∨ 2 ^ 63 ≤ product then int64MinValue else product

/-- Embeds `ExponentialBackoff.DelayForFailure`
(src/eso-advanced-patterns/15_custom_rate_limiter.go:70-76):
`delay := time.Duration(float64(e.BaseDelay) * math.Pow(2, float64(failures)))`
followed by the `MaxDelay` cap. The float computation and int64 conversion
are embedded by `durationOfFloatProduct` (exact for `|BaseDelay| < 2^53`,
amd64 conversion semantics out of range). -/
def ExponentialBackoff.DelayForFailure (e : ExponentialBackoff) (failures : Nat) : Int :=
  if durationOfFloatProduct (e.baseDelay * 2 ^ failures) > e.maxDelay then e.maxDelay
  else durationOfFloatProduct (e.baseDelay * 2 ^ failures)

/-- One second in `time.Duration` nanoseconds. -/
def second : Int := 1000000000

/-- The configuration the source demonstrates: `BaseDelay: 1 * time.Second`,
`MaxDelay: 7 * time.Minute` (420 seconds). -/
def esoBackoff : ExponentialBackoff :=
  { baseDelay := second, maxDelay := 420 * second }

/-! ### Claims about the refresh gate and the backoff -/

/-- C1: for every refresh policy, bookkeeping and current version,
`shouldRefresh` returns exactly what the spec's policy table dictates:
under `CreatedOnce` it is true iff never synced; under `OnChange` it is true
iff never synced or the recorded version differs from the current one; under
the periodic default it is true iff the version mismatches, or it was never
refreshed, or `now - lastRefresh ≥ interval`, except that an interval `≤ 0`
on an already-synced resource forces false. -/
theorem shouldRefresh_policy_table (spec : ExternalSecretSpec)
    (status : ExternalSecretStatus) (g : Int) (now : Nat) :
    (spec.refreshPolicy = "CreatedOnce" →
      (shouldRefresh spec status g now = true ↔ neverSynced status)) ∧
    (spec.refreshPolicy = "OnChange" →
      (shouldRefresh spec status g now = true ↔
        (neverSynced status ∨ status.syncedResourceVersion ≠ toString g))) ∧
    (spec.refreshPolicy ≠ "CreatedOnce" → spec.refreshPolicy ≠ "OnChange" →
      (if spec.refreshInterval ≤ 0 ∧ status.syncedResourceVersion ≠ "" then
        shouldRefresh spec status g now = false
      else
        (shouldRefresh spec status g now = true ↔
          (status.syncedResourceVersion ≠ toString g ∨ status.refreshTime = 0 ∨
            (now : Int) - (status.refreshTime : Int) ≥ spec.refreshInterval)))) := by
  refine ⟨fun hpol => ?_, fun hpol => ?_, fun h1 h2 => ?_⟩
  · simp only [shouldRefresh, hpol, if_pos rfl, neverSynced]
    split <;> simp_all
  · have hOC : shouldRefresh spec status g now =
        (if status.syncedResourceVersion = "" ∨ status.refreshTime = 0 then true
        else decide (status.syncedResourceVersion ≠ toString g)) := by
      simp [shouldRefresh, hpol]
    rw [hOC]
    split <;> rename_i h
    · simp [neverSynced, h]
    · simp only [neverSynced, decide_eq_true_eq]
      constructor
      · exact fun hm => Or.inr hm
      · rintro (hs | hm)
        · exact absurd hs h
        · exact hm
  · simp only [shouldRefresh, if_neg h1, if_neg h2, shouldRefreshPeriodic]
    split <;> rename_i hzero
    · simp [hzero]
    · split <;> rename_i hver
      · simp [hver]
      · split <;> rename_i hrt
        · simp [hrt]
        · simp [hver, hrt]

/-- C2 counterexample: with base 1s and max 7m, at failure count 34 the
product `1e9 * 2^34` exceeds int64 max, the float64-to-int64 conversion
yields minInt64 (amd64) and the negative delay slips past the `> MaxDelay`
cap uncapped — the returned delay is not `min(maxDelay, base * 2^34)`,
refuting the universal formula. -/
theorem DelayForFailure_overflow_uncapped :
    esoBackoff.DelayForFailure 34 = int64MinValue ∧
    min esoBackoff.maxDelay (esoBackoff.baseDelay * 2 ^ 34) = 420 * second ∧
    ¬ esoBackoff.DelayForFailure 34 =
        min esoBackoff.maxDelay (esoBackoff.baseDelay * 2 ^ 34) := by
  refine ⟨by decide, by decide, by decide⟩

/-- C2, as amended: whenever the product `base * 2 ^ failureCount` is within
int64 range the delay equals `min(maxDelay, base * 2 ^ failureCount)`; a
product outside int64 range converts (amd64) to minInt64 and, for any
int64-representable `maxDelay`, is returned uncapped as that negative value;
the returned delay never exceeds `maxDelay` for any failure count; and with
base 1s and max 7m the failure counts 0..10 yield
1s, 2s, 4s, 8s, 16s, 32s, 64s, 128s, 256s, 420s, 420s. -/
theorem DelayForFailure_capped_formula :
    (∀ (e : ExponentialBackoff) (n : Nat),
      -(2 ^ 63) ≤ e.baseDelay * 2 ^ n → e.baseDelay * 2 ^ n < 2 ^ 63 →
        e.DelayForFailure n = min e.maxDelay (e.baseDelay * 2 ^ n)) ∧
    (∀ (e : ExponentialBackoff) (n : Nat),
      (e.baseDelay * 2 ^ n < -(2 ^ 63) ∨ 2 ^ 63 ≤ e.baseDelay * 2 ^ n) →
      int64MinValue ≤ e.maxDelay →
        e.DelayForFailure n = int64MinValue) ∧
    (∀ (e : ExponentialBackoff) (n : Nat), e.DelayForFailure n ≤ e.maxDelay) ∧
    (List.range 11).map esoBackoff.DelayForFailure =
      [1, 2, 4, 8, 16, 32, 64, 128, 256, 420, 420].map (· * second) := by
  refine ⟨?_, ?_, ?_, by decide⟩
  · intro e n hlo hhi
    have hconv : durationOfFloatProduct (e.baseDelay * 2 ^ n) =
        e.baseDelay * 2 ^ n := by
      rw [durationOfFloatProduct, if_neg (by omega)]
    unfold ExponentialBackoff.DelayForFailure
    rw [hconv]
    split <;> rename_i h <;> omega
  · intro e n hrange hmax
    have hconv : durationOfFloatProduct (e.baseDelay * 2 ^ n) = int64MinValue := by
      rw [durationOfFloatProduct, if_pos hrange]
    unfold ExponentialBackoff.DelayForFailure
    rw [hconv, if_neg (by omega)]
  · intro e n
    unfold ExponentialBackoff.DelayForFailure
    split <;> rename_i h <;> omega

/-- C3: the validity check is true iff the managed artifact exists, carries
the managed marker and its fingerprint equals the expected one; a fingerprint
mismatch alone forces it false and hence defeats the skip condition
(`!shouldRefresh && isSecretValid`) regardless of the refresh-policy
outcome. -/
theorem isSecretValidCheck_characterisation (secret : SecretState)
    (expected : String) :
    (isSecretValidCheck secret expected = true ↔
      (secret.secretExists = true ∧ secret.hasManagedLabel = true ∧
        secret.dataHash = expected)) ∧
    (secret.dataHash ≠ expected →
      isSecretValidCheck secret expected = false ∧
      ∀ (spec : ExternalSecretSpec) (status : ExternalSecretStatus)
        (g : Int) (now : Nat),
        skipProviderCall spec status g now secret expected = false) := by
  constructor
  · unfold isSecretValidCheck
    split <;> rename_i h1
    · simp_all
    · split <;> rename_i h2
      · simp_all
      · split <;> rename_i h3
        · simp_all
        · simp_all
  · intro hne
    have hfalse : isSecretValidCheck secret expected = false := by
      unfold isSecretValidCheck
      split
      · rfl
      · split <;> rfl
    refine ⟨hfalse, fun spec status g now => ?_⟩
    simp [skipProviderCall, hfalse]

end Guide

namespace EsoAdvanced

/-! ## Pattern 13: commit/rollback state manager
(src/eso-advanced-patterns/13_commit_rollback_state.go)

A queued `func() error` closure is modelled as a state transformer
`σ → σ × Option String` over an abstract ambient state `σ`; `errors.Join`
over the accumulated error slice is modelled by the accumulated
`List String` itself (`[]` = nil error). -/

/-- Embeds `QueueItem`: optional `Rollback` and `Commit` actions
(both `nil` = no-op). -/
structure QueueItem (σ : Type) where
  rollback : Option (σ → σ × Option String)
  commit : Option (σ → σ × Option String)

/-- Embeds `StateManager`: the queue of pending items. -/
structure StateManager (σ : Type) where
  queue : List (QueueItem σ)

/-- Embeds `StateManager.Enqueue`
(src/eso-advanced-patterns/13_commit_rollback_state.go:76-78):
`m.queue = append(m.queue, item)`. -/
def StateManager.Enqueue {σ : Type} (m : StateManager σ) (item : QueueItem σ) :
    StateManager σ :=
  ⟨m.queue ++ [item]⟩

/-- The loop body of `StateManager.Commit`: walk the queue in order, skip nil
commits, run each commit on the current ambient state and append its error
(when non-nil) to the accumulator. -/
def commitLoop {σ : Type} : List (QueueItem σ) → σ → List String → σ × List String
  | [], s, errs => (s, errs)
  | item :: rest, s, errs =>
    match item.commit with
    | none => commitLoop rest s errs
    | some f =>
      match f s with
      | (s2, none) => commitLoop rest s2 errs
      | (s2, some e) => commitLoop rest s2 (errs ++ [e])

/-- Embeds `StateManager.Commit`
(src/eso-advanced-patterns/13_commit_rollback_state.go:82-93): applies every
queued commit, accumulating errors, and returns `errors.Join(errs...)`. -/
def StateManager.Commit {σ : Type} (m : StateManager σ) (s : σ) : σ × List String :=
  commitLoop m.queue s []

/-- The loop body of `StateManager.Rollback`: walk the queue in order, skip
nil rollbacks, run each rollback and append its error (when non-nil). -/
def rollbackLoop {σ : Type} : List (QueueItem σ) → σ → List String → σ × List String
  | [], s, errs => (s, errs)
  | item :: rest, s, errs =>
    match item.rollback with
    | none => rollbackLoop rest s errs
    | some f =>
      match f s with
      | (s2, none) => rollbackLoop rest s2 errs
      | (s2, some e) => rollbackLoop rest s2 (errs ++ [e])

/-- Embeds `StateManager.Rollback`
(src/eso-advanced-patterns/13_commit_rollback_state.go:98-109): tries all
rollbacks even if some fail, accumulating every error. -/
def StateManager.Rollback {σ : Type} (m : StateManager σ) (s : σ) : σ × List String :=
  rollbackLoop m.queue s []

/-- Instrumented queue item over ambient state `List Nat`: its rollback
records its own index `i` in the trace and then returns the prescribed error
outcome `e`; it has no commit. Used to observe which rollbacks run. -/
def traceItem (i : Nat) (e : Option String) : QueueItem (List Nat) :=
  { rollback := some (fun s => (s ++ [i], e)), commit := none }

/-- A manager whose i-th queued item is `traceItem i errs[i]`. -/
def traceManager (errs : List (Option String)) : StateManager (List Nat) :=
  ⟨List.zipWith traceItem (List.range errs.length) errs⟩

/-- Instrumented item whose commit and rollback both record index `i` and
succeed. Used to observe the order in which actions run. -/
def orderItem (i : Nat) : QueueItem (List Nat) :=
  { rollback := some (fun s => (s ++ [i], none)),
    commit := some (fun s => (s ++ [i], none)) }

/-- Enqueue `orderItem i` for each `i` of the list, in order, via
`StateManager.Enqueue`. -/
def enqueueAll (m : StateManager (List Nat)) : List Nat → StateManager (List Nat)
  | [] => m
  | i :: rest => enqueueAll (m.Enqueue (orderItem i)) rest

theorem rollbackLoop_trace (errs : List (Option String)) (k : Nat)
    (s : List Nat) (acc : List String) :
    rollbackLoop (List.zipWith traceItem (List.range' k errs.length) errs) s acc =
      (s ++ List.range' k errs.length, acc ++ errs.reduceOption) := by
  induction errs generalizing k s acc with
  | nil => simp [rollbackLoop]
  | cons e rest ih =>
    rw [List.length_cons, List.range'_succ]
    cases e with
    | none =>
      simp only [List.zipWith, rollbackLoop, traceItem, ih (k + 1) (s ++ [k]) acc,
        List.reduceOption_cons_of_none]
      simp [List.range'_succ]
    | some msg =>
      simp only [List.zipWith, rollbackLoop, traceItem,
        ih (k + 1) (s ++ [k]) (acc ++ [msg]), List.reduceOption_cons_of_some]
      simp [List.range'_succ]

theorem commitLoop_order (n k : Nat) (s : List Nat) (acc : List String) :
    commitLoop ((List.range' k n).map orderItem) s acc =
      (s ++ List.range' k n, acc) := by
  induction n generalizing k s with
  | zero => simp [commitLoop]
  | succ m ih =>
    rw [List.range'_succ]
    simp only [List.map_cons, commitLoop, orderItem, ih (k + 1) (s ++ [k])]
    simp [List.range'_succ]

theorem rollbackLoop_order (n k : Nat) (s : List Nat) (acc : List String) :
    rollbackLoop ((List.range' k n).map orderItem) s acc =
      (s ++ List.range' k n, acc) := by
  induction n generalizing k s with
  | zero => simp [rollbackLoop]
  | succ m ih =>
    rw [List.range'_succ]
    simp only [List.map_cons, rollbackLoop, orderItem, ih (k + 1) (s ++ [k])]
    simp [List.range'_succ]

theorem enqueueAll_queue (l : List Nat) (m : StateManager (List Nat)) :
    (enqueueAll m l).queue = m.queue ++ l.map orderItem := by
  induction l generalizing m with
  | nil => simp [enqueueAll]
  | cons i rest ih =>
    simp [enqueueAll, ih, StateManager.Enqueue]

/-- C4: for every assignment of error outcomes to the queued rollbacks,
`Rollback` runs every rollback in queue order (the trace lists every index,
whatever errors earlier rollbacks returned — no short-circuit), returns
exactly the list of all rollback errors (`errors.Join` of them; the empty
list is the nil error, returned when none failed), and an item with a nil
rollback is skipped as a no-op. -/
theorem Rollback_runs_all (errs : List (Option String)) :
    ((traceManager errs).Rollback []).1 = List.range errs.length ∧
    ((traceManager errs).Rollback []).2 = errs.reduceOption ∧
    (∀ (q : List (QueueItem (List Nat))) (s : List Nat),
      StateManager.Rollback ⟨{ rollback := none, commit := none } :: q⟩ s =
        StateManager.Rollback ⟨q⟩ s) := by
  refine ⟨?_, ?_, ?_⟩
  · simp [StateManager.Rollback, traceManager, List.range_eq_range',
      rollbackLoop_trace errs 0 [] []]
  · simp [StateManager.Rollback, traceManager, List.range_eq_range',
      rollbackLoop_trace errs 0 [] []]
  · intro q s
    simp [StateManager.Rollback, rollbackLoop]

/-- C5 counterexample: a manager with one queued commit action. The claim
says that after a first `Commit` a second `Commit` invokes no actions; but
the second call runs the queued commit again (the trace grows from `[0]` to
`[0, 0]`), because neither `Commit` nor `Rollback` clears the queue. -/
theorem Commit_twice_not_discarded :
    ((StateManager.Commit ⟨[orderItem 0]⟩ []).1 = [0] ∧
      (StateManager.Commit ⟨[orderItem 0]⟩
        ((StateManager.Commit ⟨[orderItem 0]⟩ []).1)).1 = [0, 0]) ∧
    ¬ (StateManager.Commit ⟨[orderItem 0]⟩
        ((StateManager.Commit ⟨[orderItem 0]⟩ []).1)).1 = [0] := by
  refine ⟨⟨rfl, rfl⟩, by decide⟩

/-- C5 as amended: queued items are scoped to one reconciliation attempt only
by constructing a fresh manager per attempt; `Commit` and `Rollback` do not
discard the queue, so a second call on the same manager re-invokes every
queued action again, in the same order. -/
theorem Commit_Rollback_queue_retained (n : Nat) :
    ((enqueueAll ⟨[]⟩ (List.range n)).Commit
        ((enqueueAll ⟨[]⟩ (List.range n)).Commit []).1).1 =
      List.range n ++ List.range n ∧
    ((enqueueAll ⟨[]⟩ (List.range n)).Rollback
        ((enqueueAll ⟨[]⟩ (List.range n)).Rollback []).1).1 =
      List.range n ++ List.range n := by
  constructor
  · simp [StateManager.Commit, enqueueAll_queue, List.range_eq_range',
      commitLoop_order]
  · simp [StateManager.Rollback, enqueueAll_queue, List.range_eq_range',
      rollbackLoop_order]

/-- C10: both `Commit` and `Rollback` apply the queued actions in enqueue
(FIFO) order: enqueueing the indexed actions `0, …, n-1` and running either
pass yields the trace `[0, …, n-1]`, and for `n ≥ 2` this is not the reverse
(last-in-first-out) order of conventional transaction rollback. -/
theorem Commit_Rollback_fifo_order (n : Nat) :
    ((enqueueAll ⟨[]⟩ (List.range n)).Commit []).1 = List.range n ∧
    ((enqueueAll ⟨[]⟩ (List.range n)).Rollback []).1 = List.range n ∧
    (2 ≤ n → ((enqueueAll ⟨[]⟩ (List.range n)).Rollback []).1 ≠
      (List.range n).reverse) := by
  refine ⟨?_, ?_, ?_⟩
  · simp [StateManager.Commit, enqueueAll_queue, List.range_eq_range',
      commitLoop_order]
  · simp [StateManager.Rollback, enqueueAll_queue, List.range_eq_range',
      rollbackLoop_order]
  · intro hn
    have hfst : ((enqueueAll ⟨[]⟩ (List.range n)).Rollback []).1 = List.range n := by
      simp [StateManager.Rollback, enqueueAll_queue, List.range_eq_range',
        rollbackLoop_order]
    rw [hfst]
    intro heq
    have h := congrArg (fun l => l[0]?) heq
    simp only [List.getElem?_range (by omega : 0 < n)] at h
    rw [List.getElem?_reverse (by simp; omega)] at h
    simp only [List.length_reverse, List.length_range] at h
    rw [List.getElem?_range (by omega : n - 1 - 0 < n)] at h
    simp only [Option.some.injEq] at h
    omega

/-! ## Pattern 14: TryLock for non-blocking per-key access
(src/unnamed pattern file, `TryLock` / `secretLocks.tryLock`)

Go errors with `%w`-wrapping are modelled as an inductive chain, `errors.Is`
as recursive unwrapping; the `sync.Map` of per-key mutexes is modelled as an
association list from composite key to a held flag, with `LoadOrStore`
becoming lookup-or-insert. The embedding is of the serialized behaviour of
one call; the source's non-blocking property is reflected in `tryLock`
returning immediately in every case. -/

/-- A Go error value: the `ErrConflict` sentinel, or an error wrapping
another (built by `fmt.Errorf` with `%w`). -/
inductive GoError where
  | conflict : GoError
  | wrapped : String → GoError → GoError
deriving DecidableEq

/-- Embeds `errors.Is`: the target matches the error itself or anything in
its unwrap chain. -/
def errorsIs : GoError → GoError → Bool
  | .conflict, target => GoError.conflict == target
  | .wrapped msg inner, target => (GoError.wrapped msg inner == target) || errorsIs inner target

/-- Looks a key up in the lock map (the `sync.Map` of mutexes): `some held`
when a mutex for the key exists, `none` otherwise. -/
def lookupLock : List (String × Bool) → String → Option Bool
  | [], _ => none
  | (k, b) :: rest, key => if k = key then some b else lookupLock rest key

/-- Sets the key's held flag, inserting the entry when absent (the effect of
`LoadOrStore` followed by a successful `TryLock` on the returned mutex). -/
def storeLock : List (String × Bool) → String → Bool → List (String × Bool)
  | [], key, b => [(key, b)]
  | (k, h) :: rest, key, b =>
    if k = key then (key, b) :: rest else (k, h) :: storeLock rest key b

/-- Embeds `secretLocks`: the registry of per-key mutexes, each represented
by its held flag. -/
structure secretLocks where
  locks : List (String × Bool)
deriving DecidableEq

/-- Embeds `secretLocks.tryLock`: `LoadOrStore` the key's mutex, then a
non-blocking `TryLock` on it — acquiring when absent or present-unheld,
failing (and changing nothing) when held. -/
def secretLocks.tryLock (s : secretLocks) (key : String) : secretLocks × Bool :=
  match lookupLock s.locks key with
  | none => (⟨storeLock s.locks key true⟩, true)
  | some held =>
    if held then (s, false) else (⟨storeLock s.locks key true⟩, true)

/-- The pair `TryLock` returns: whether a non-nil unlock function was handed
out, and the error (`none` = nil). -/
structure TryLockResult where
  hasUnlock : Bool
  err : Option GoError
deriving DecidableEq

/-- Embeds the package-level `TryLock(providerName, secretName)`: builds the
composite key `provider#secret`, attempts `tryLock`, and on failure returns a
nil unlock function with an error wrapping `ErrConflict`. -/
def TryLock (s : secretLocks) (providerName secretName : String) :
    secretLocks × TryLockResult :=
  let key := providerName ++ "#" ++ secretName
  match s.tryLock key with
  | (s2, true) => (s2, ⟨true, none⟩)
  | (s2, false) =>
    (s2, ⟨false, some (.wrapped
      ("failed to acquire lock: provider: " ++ providerName ++ ", secret: " ++
        secretName) .conflict)⟩)

/-- C6: a `TryLock` call for a composite key whose mutex is held returns a
nil unlock function and an error that `errors.Is`-matches `ErrConflict`, even
after further wrapping, and leaves the lock map — in particular the holder's
held entry — unchanged. -/
theorem TryLock_held_conflict (s : secretLocks) (p n : String)
    (h : lookupLock s.locks (p ++ "#" ++ n) = some true) :
    (TryLock s p n).1 = s ∧ (TryLock s p n).2.hasUnlock = false ∧
    ∃ e, (TryLock s p n).2.err = some e ∧ errorsIs e .conflict = true ∧
      (∀ msg, errorsIs (.wrapped msg e) .conflict = true) := by
  have hstep : s.tryLock (p ++ "#" ++ n) = (s, false) := by
    rw [secretLocks.tryLock, h]
    simp
  have hres : TryLock s p n =
      (s, ⟨false, some (.wrapped
        ("failed to acquire lock: provider: " ++ p ++ ", secret: " ++ n)
        .conflict)⟩) := by
    rw [TryLock]
    simp only [hstep]
  rw [hres]
  refine ⟨rfl, rfl, _, rfl, ?_, ?_⟩
  · simp [errorsIs]
  · intro msg
    simp [errorsIs]

/-- A concrete lock map in which provider `aws`, secret `db` is held. -/
def lockS0 : secretLocks := ⟨[("aws#db", true)]⟩

/-- C6 witness: instantiates the held-key conflict theorem on `lockS0`. -/
theorem TryLock_held_conflict_witness :
    (TryLock lockS0 "aws" "db").1 = lockS0 ∧
      (TryLock lockS0 "aws" "db").2.hasUnlock = false ∧
      ∃ e, (TryLock lockS0 "aws" "db").2.err = some e ∧
        errorsIs e .conflict = true ∧
        (∀ msg, errorsIs (.wrapped msg e) .conflict = true) :=
  TryLock_held_conflict lockS0 "aws" "db" (by decide)

/-! ## Pattern 12: condition management
(src/eso-advanced-patterns/20_feature_flag_registration.go:340-486)

`time.Time` is a `Nat` instant; the Prometheus-metric side calls of
`SetCondition` touch no stored state and are omitted — the claim is about
the stored conditions and their transition times. -/

/-- Embeds `Condition`: type, tri-state status string, reason, message and
last transition time. -/
structure Condition where
  type : String
  status : String
  reason : String
  message : String
  lastTransitionTime : Nat
deriving DecidableEq

/-- Embeds `ResourceStatus`. -/
structure ResourceStatus where
  conditions : List Condition
deriving DecidableEq

/-- The loop of `getCondition`: first condition whose type matches. -/
def findCondition : List Condition → String → Option Condition
  | [], _ => none
  | c :: rest, t => if c.type = t then some c else findCondition rest t

/-- Embeds `getCondition`
(src/eso-advanced-patterns/20_feature_flag_registration.go:445-452). -/
def getCondition (status : ResourceStatus) (condType : String) : Option Condition :=
  findCondition status.conditions condType

/-- Embeds `filterOutCondition`
(src/eso-advanced-patterns/20_feature_flag_registration.go:454-462). -/
def filterOutCondition : List Condition → String → List Condition
  | [], _ => []
  | c :: rest, t =>
    if c.type ≠ t then c :: filterOutCondition rest t
    else filterOutCondition rest t

/-- Embeds `SetCondition`
(src/eso-advanced-patterns/20_feature_flag_registration.go:380-415): early
return when status, reason and message are all unchanged; preserve the old
`LastTransitionTime` when only reason or message changed; stamp `now` when
the tri-state status actually changed or the condition type is new. -/
def SetCondition (status : ResourceStatus) (newCond : Condition) (now : Nat) :
    ResourceStatus :=
  match getCondition status newCond.type with
  | some currentCond =>
    if currentCond.status = newCond.status ∧ currentCond.reason = newCond.reason ∧
        currentCond.message = newCond.message then
      status
    else
      let nc := if currentCond.status = newCond.status then
          { newCond with lastTransitionTime := currentCond.lastTransitionTime }
        else
          { newCond with lastTransitionTime := now }
      ⟨filterOutCondition status.conditions newCond.type ++ [nc]⟩
  | none =>
    ⟨filterOutCondition status.conditions newCond.type ++
      [{ newCond with lastTransitionTime := now }]⟩

theorem findCondition_filterOut_append (l : List Condition) (t : String)
    (xs : List Condition) :
    findCondition (filterOutCondition l t ++ xs) t = findCondition xs t := by
  induction l with
  | nil => simp [filterOutCondition]
  | cons c rest ih =>
    rw [filterOutCondition]
    split <;> rename_i hc
    · rw [List.cons_append, findCondition, if_neg (by simp_all), ih]
    · exact ih

/-- C7: `SetCondition` leaves the stored conditions untouched when tri-state
status, reason and message all equal the current condition's; when the status
is unchanged but reason or message differ, the stored condition keeps the
existing last-transition-time; and only an actual status change, or a
brand-new condition type, stamps the last-transition-time with `now`. -/
theorem SetCondition_transition_time (st : ResourceStatus) (nc : Condition)
    (now : Nat) :
    (∀ c, getCondition st nc.type = some c →
      ((c.status = nc.status ∧ c.reason = nc.reason ∧ c.message = nc.message) →
        SetCondition st nc now = st) ∧
      ((c.status = nc.status ∧ ¬(c.reason = nc.reason ∧ c.message = nc.message)) →
        getCondition (SetCondition st nc now) nc.type =
          some { nc with lastTransitionTime := c.lastTransitionTime }) ∧
      (c.status ≠ nc.status →
        getCondition (SetCondition st nc now) nc.type =
          some { nc with lastTransitionTime := now })) ∧
    (getCondition st nc.type = none →
      getCondition (SetCondition st nc now) nc.type =
        some { nc with lastTransitionTime := now }) := by
  constructor
  · intro c hc
    refine ⟨fun heq => ?_, fun hkeep => ?_, fun hflip => ?_⟩
    · rw [SetCondition, hc]
      dsimp only
      rw [if_pos heq]
    · rw [SetCondition, hc]
      dsimp only
      rw [if_neg (by tauto), if_pos hkeep.1, getCondition,
        findCondition_filterOut_append]
      simp [findCondition]
    · rw [SetCondition, hc]
      dsimp only
      rw [if_neg (by tauto), if_neg hflip, getCondition,
        findCondition_filterOut_append]
      simp [findCondition]
  · intro hnone
    rw [SetCondition, hnone]
    dsimp only
    rw [getCondition, findCondition_filterOut_append]
    simp [findCondition]

/-! ## Pattern 18: dynamic informer reference counting
(src/eso-advanced-patterns/18_dynamic_informer_refcount.go)

The `map[string]*informerEntry` becomes an association list keyed by the
GVK string; the per-entry `map[NamespacedName]struct{}` reference set becomes
a duplicate-free list with insert-if-absent; `stopFunc` invocation is
reported in `ReleaseInformer`'s extra boolean result. -/

/-- Embeds `GVK`. -/
structure GVK where
  group : String
  version : String
  kind : String
deriving DecidableEq

/-- Embeds `GVK.String()`: `group/version/kind`. -/
def GVK.stringKey (g : GVK) : String :=
  g.group ++ "/" ++ g.version ++ "/" ++ g.kind

/-- Embeds `NamespacedName` (fields `Namespace`/`Name`; the first is renamed
since `namespace` is reserved in Lean). -/
structure NamespacedName where
  nspace : String
  name : String
deriving DecidableEq

/-- Embeds `informerEntry`: the set of referencing ExternalSecrets (the
`stopFunc` itself carries no state that the claims mention; whether it is
invoked is reported by `ReleaseInformer`). -/
structure informerEntry where
  externalSecrets : List NamespacedName
deriving DecidableEq

/-- Embeds `InformerManager`: the GVK-string-keyed map of entries. -/
structure InformerManager where
  informers : List (String × informerEntry)
deriving DecidableEq

/-- Association-list lookup for the informer map. -/
def lookupInformer : List (String × informerEntry) → String → Option informerEntry
  | [], _ => none
  | (k, e) :: rest, key => if k = key then some e else lookupInformer rest key

/-- Association-list store: replace the entry at the key, or append it. -/
def storeInformer : List (String × informerEntry) → String → informerEntry →
    List (String × informerEntry)
  | [], key, e => [(key, e)]
  | (k, e0) :: rest, key, e =>
    if k = key then (key, e) :: rest else (k, e0) :: storeInformer rest key e

/-- Association-list delete (`delete(m.informers, key)`). -/
def removeInformer : List (String × informerEntry) → String →
    List (String × informerEntry)
  | [], _ => []
  | (k, e) :: rest, key =>
    if k = key then removeInformer rest key else (k, e) :: removeInformer rest key

/-- Set insertion for the reference set (`entry.externalSecrets[es] = struct{}{}`
on a Go map: a present key stays a single entry). -/
def insertES (l : List NamespacedName) (es : NamespacedName) : List NamespacedName :=
  if es ∈ l then l else l ++ [es]

/-- Set removal for the reference set (`delete(entry.externalSecrets, es)`). -/
def eraseES : List NamespacedName → NamespacedName → List NamespacedName
  | [], _ => []
  | x :: rest, es => if x = es then eraseES rest es else x :: eraseES rest es

/-- Embeds `InformerManager.EnsureInformer`
(src/eso-advanced-patterns/18_dynamic_informer_refcount.go:111-137): register
the ExternalSecret with an existing informer, or create a new informer whose
reference set is the singleton; the boolean is `created`. -/
def InformerManager.EnsureInformer (m : InformerManager) (gvk : GVK)
    (es : NamespacedName) : InformerManager × Bool :=
  let key := gvk.stringKey
  match lookupInformer m.informers key with
  | some entry =>
    (⟨storeInformer m.informers key
      { entry with externalSecrets := insertES entry.externalSecrets es }⟩, false)
  | none =>
    (⟨storeInformer m.informers key { externalSecrets := [es] }⟩, true)

/-- Embeds `InformerManager.ReleaseInformer`
(src/eso-advanced-patterns/18_dynamic_informer_refcount.go:143-167): no-op on
an unknown key; otherwise drop the ExternalSecret from the reference set and,
when the set empties, invoke `stopFunc` (reported as the boolean) and remove
the entry. -/
def InformerManager.ReleaseInformer (m : InformerManager) (gvk : GVK)
    (es : NamespacedName) : InformerManager × Bool :=
  let key := gvk.stringKey
  match lookupInformer m.informers key with
  | none => (m, false)
  | some entry =>
    let remaining := eraseES entry.externalSecrets es
    if remaining = [] then
      (⟨removeInformer m.informers key⟩, true)
    else
      (⟨storeInformer m.informers key { entry with externalSecrets := remaining }⟩,
        false)

/-- Embeds `InformerManager.IsManaged`. -/
def InformerManager.IsManaged (m : InformerManager) (gvk : GVK) : Bool :=
  (lookupInformer m.informers gvk.stringKey).isSome

theorem lookupInformer_storeInformer (l : List (String × informerEntry))
    (key : String) (e : informerEntry) :
    lookupInformer (storeInformer l key e) key = some e := by
  induction l with
  | nil => simp [storeInformer, lookupInformer]
  | cons p rest ih =>
    obtain ⟨k, e0⟩ := p
    rw [storeInformer]
    split <;> rename_i hk
    · simp [lookupInformer]
    · rw [lookupInformer, if_neg hk]
      exact ih

theorem storeInformer_self (l : List (String × informerEntry)) (key : String)
    (e : informerEntry) (h : lookupInformer l key = some e) :
    storeInformer l key e = l := by
  induction l with
  | nil => simp [lookupInformer] at h
  | cons p rest ih =>
    obtain ⟨k, e0⟩ := p
    rw [lookupInformer] at h
    rw [storeInformer]
    split <;> rename_i hk
    · rw [if_pos hk] at h
      simp only [Option.some.injEq] at h
      rw [hk, h]
    · rw [if_neg hk] at h
      rw [ih h]

theorem lookupInformer_removeInformer (l : List (String × informerEntry))
    (key : String) :
    lookupInformer (removeInformer l key) key = none := by
  induction l with
  | nil => simp [removeInformer, lookupInformer]
  | cons p rest ih =>
    obtain ⟨k, e0⟩ := p
    rw [removeInformer]
    split <;> rename_i hk
    · exact ih
    · rw [lookupInformer, if_neg hk]
      exact ih

theorem mem_insertES (l : List NamespacedName) (es : NamespacedName) :
    es ∈ insertES l es := by
  rw [insertES]
  split <;> simp_all

theorem insertES_mem (l : List NamespacedName) (es : NamespacedName)
    (h : es ∈ l) : insertES l es = l := by
  rw [insertES, if_pos h]

theorem EnsureInformer_some (m : InformerManager) (gvk : GVK)
    (es : NamespacedName) (entry : informerEntry)
    (h : lookupInformer m.informers gvk.stringKey = some entry) :
    m.EnsureInformer gvk es =
      (⟨storeInformer m.informers gvk.stringKey
        { entry with externalSecrets := insertES entry.externalSecrets es }⟩,
        false) := by
  unfold InformerManager.EnsureInformer
  simp only [h]

theorem EnsureInformer_none (m : InformerManager) (gvk : GVK)
    (es : NamespacedName)
    (h : lookupInformer m.informers gvk.stringKey = none) :
    m.EnsureInformer gvk es =
      (⟨storeInformer m.informers gvk.stringKey { externalSecrets := [es] }⟩,
        true) := by
  unfold InformerManager.EnsureInformer
  simp only [h]

theorem ReleaseInformer_none (m : InformerManager) (gvk : GVK)
    (es : NamespacedName)
    (h : lookupInformer m.informers gvk.stringKey = none) :
    m.ReleaseInformer gvk es = (m, false) := by
  unfold InformerManager.ReleaseInformer
  simp only [h]

theorem ReleaseInformer_last (m : InformerManager) (gvk : GVK)
    (es : NamespacedName) (entry : informerEntry)
    (h : lookupInformer m.informers gvk.stringKey = some entry)
    (hempty : eraseES entry.externalSecrets es = []) :
    m.ReleaseInformer gvk es =
      (⟨removeInformer m.informers gvk.stringKey⟩, true) := by
  unfold InformerManager.ReleaseInformer
  simp only [h, hempty]
  rfl

/-- C8: the dynamic watch manager's reference tracking behaves as a set:
a duplicate ensure call from the same referencing key changes nothing and
creates no second watch; `EnsureInformer` reports `created = true` exactly
when no watch existed for the type; `ReleaseInformer` on an unknown type is a
silent no-op; and a release that empties the reference set tears the watch
down exactly once — the entry is gone and a repeated release invokes no
further teardown. -/
theorem InformerManager_refcount (m : InformerManager) (gvk : GVK)
    (es : NamespacedName) :
    (InformerManager.EnsureInformer (m.EnsureInformer gvk es).1 gvk es =
      ((m.EnsureInformer gvk es).1, false)) ∧
    ((m.EnsureInformer gvk es).2 = true ↔
      lookupInformer m.informers gvk.stringKey = none) ∧
    (lookupInformer m.informers gvk.stringKey = none →
      m.ReleaseInformer gvk es = (m, false)) ∧
    (∀ entry, lookupInformer m.informers gvk.stringKey = some entry →
      eraseES entry.externalSecrets es = [] →
      (m.ReleaseInformer gvk es).2 = true ∧
      lookupInformer (m.ReleaseInformer gvk es).1.informers gvk.stringKey = none ∧
      ((m.ReleaseInformer gvk es).1.ReleaseInformer gvk es).2 = false) := by
  refine ⟨?_, ?_, ?_, ?_⟩
  · cases hl : lookupInformer m.informers gvk.stringKey with
    | some entry =>
      rw [EnsureInformer_some m gvk es entry hl]
      rw [EnsureInformer_some _ gvk es _ (lookupInformer_storeInformer _ _ _)]
      rw [insertES_mem _ _ (mem_insertES _ _), storeInformer_self _ _ _
        (lookupInformer_storeInformer _ _ _)]
    | none =>
      rw [EnsureInformer_none m gvk es hl]
      rw [EnsureInformer_some _ gvk es _ (lookupInformer_storeInformer _ _ _)]
      rw [insertES_mem _ _ (by simp [insertES]), storeInformer_self _ _ _
        (lookupInformer_storeInformer _ _ _)]
  · cases hl : lookupInformer m.informers gvk.stringKey with
    | some entry => rw [EnsureInformer_some m gvk es entry hl]; simp [hl]
    | none => rw [EnsureInformer_none m gvk es hl]; simp [hl]
  · intro hl
    exact ReleaseInformer_none m gvk es hl
  · intro entry hl hempty
    have hrel := ReleaseInformer_last m gvk es entry hl hempty
    refine ⟨by rw [hrel], ?_, ?_⟩
    · rw [hrel]
      exact lookupInformer_removeInformer _ _
    · rw [hrel, ReleaseInformer_none _ gvk es (lookupInformer_removeInformer _ _)]

end EsoAdvanced

namespace WorkQueue

/-! ## Pattern 4: deduplicating work queue

Modelled from the spec: the deduplicating work queue itself is not
implemented in the repository's files — src/04_workqueue_deduplication.go
documents its contract (dedup of pending keys, dirty-while-processing with
automatic re-add on `done`, at-most-one in-flight worker per key) and the
implementation lives in controller-runtime. The state and operations below
follow the spec's words (§3 QueueEntry, §4.3, §5): a key is *pending* when in
`dirty` and still queued, *processing* after `get`, and *dirty while
processing* when re-added before `done`. The queue's internal operations are
serialized (it is mutex-protected), so single steps on the state model the
concurrent calls faithfully. -/

/-- Modelled from the spec: the queue's state — the ordered pending queue,
the dirty set and the processing set. -/
structure WQ where
  queue : List String
  dirty : List String
  processing : List String
deriving DecidableEq

/-- Removes a key from a set. -/
def removeKey : List String → String → List String
  | [], _ => []
  | x :: rest, k => if x = k then removeKey rest k else x :: removeKey rest k

/-- Modelled from the spec: `add` — a key already pending (in `dirty`) is a
no-op; otherwise it is marked dirty, and queued unless currently
processing. -/
def add (s : WQ) (k : String) : WQ :=
  if k ∈ s.dirty then s
  else if k ∈ s.processing then { s with dirty := s.dirty ++ [k] }
  else { s with dirty := s.dirty ++ [k], queue := s.queue ++ [k] }

/-- Modelled from the spec: `get` — dequeue the head key, mark it processing
and clear its dirty mark; `none` models the blocked worker on an empty
queue. -/
def get (s : WQ) : Option String × WQ :=
  match s.queue with
  | [] => (none, s)
  | k :: rest =>
    (some k,
      { queue := rest, dirty := removeKey s.dirty k,
        processing := s.processing ++ [k] })

/-- Modelled from the spec: `done` — unmark processing and, if the key was
re-added while processing (still dirty), automatically re-queue it. -/
def done (s : WQ) (k : String) : WQ :=
  if k ∈ s.dirty then
    { queue := s.queue ++ [k], dirty := s.dirty,
      processing := removeKey s.processing k }
  else
    { s with processing := removeKey s.processing k }

/-- `n` successive `add` calls for the same key. -/
def addN (s : WQ) (k : String) : Nat → WQ
  | 0 => s
  | n + 1 => addN (add s k) k n

theorem add_of_mem_dirty (s : WQ) (k : String) (h : k ∈ s.dirty) :
    add s k = s := by
  rw [add, if_pos h]

theorem addN_of_mem_dirty (s : WQ) (k : String) (h : k ∈ s.dirty) (n : Nat) :
    addN s k n = s := by
  induction n with
  | zero => rfl
  | succ m ih => rw [addN, add_of_mem_dirty s k h, ih]

theorem mem_removeKey_iff (l : List String) (k x : String) :
    x ∈ removeKey l k ↔ (x ∈ l ∧ x ≠ k) := by
  induction l with
  | nil => simp [removeKey]
  | cons y rest ih =>
    rw [removeKey]
    split <;> rename_i hy
    · subst hy
      rw [ih]
      constructor
      · exact fun hx => ⟨List.mem_cons_of_mem _ hx.1, hx.2⟩
      · rintro ⟨hx, hne⟩
        rcases List.mem_cons.mp hx with h | h
        · exact absurd h hne
        · exact ⟨h, hne⟩
    · simp only [List.mem_cons, ih]
      constructor
      · rintro (h | ⟨h, hne⟩)
        · subst h
          exact ⟨Or.inl rfl, fun hk => hy hk⟩
        · exact ⟨Or.inr h, hne⟩
      · rintro ⟨h | h, hne⟩
        · exact Or.inl h
        · exact Or.inr ⟨h, hne⟩

theorem removeKey_of_not_mem (l : List String) (k : String) (h : k ∉ l) :
    removeKey l k = l := by
  induction l with
  | nil => rfl
  | cons y rest ih =>
    rw [removeKey]
    split <;> rename_i hy
    · exact absurd (hy ▸ List.mem_cons_self y rest) h
    · rw [ih (fun hk => h (List.mem_cons_of_mem _ hk))]

theorem removeKey_append (l1 l2 : List String) (k : String) :
    removeKey (l1 ++ l2) k = removeKey l1 k ++ removeKey l2 k := by
  induction l1 with
  | nil => simp [removeKey]
  | cons x rest ih =>
    rw [List.cons_append, removeKey, removeKey]
    split <;> simp [ih]

/-- C9: modelled from the spec — for every key `k` and every state whose
dirty and processing sets do not hold `k`, `n₁ ≥ 1` adds of `k` put exactly
one copy of `k` in the queue (one dequeue); the dequeue hands `k` to exactly
one worker; during processing, any number `n₂` of further adds leave the
queue empty of `k` (no second worker can ever receive it); and `done`
re-queues `k` exactly once when `n₂ ≥ 1` and not at all when `n₂ = 0`. -/
theorem workqueue_dedup_window (k : String) (d0 p0 : List String)
    (n₁ n₂ : Nat) (hd : k ∉ d0) (hp : k ∉ p0) (hn : 1 ≤ n₁) :
    (addN ⟨[], d0, p0⟩ k n₁).queue = [k] ∧
    (get (addN ⟨[], d0, p0⟩ k n₁)).1 = some k ∧
    (addN (get (addN ⟨[], d0, p0⟩ k n₁)).2 k n₂).queue = [] ∧
    k ∈ (addN (get (addN ⟨[], d0, p0⟩ k n₁)).2 k n₂).processing ∧
    (done (addN (get (addN ⟨[], d0, p0⟩ k n₁)).2 k n₂) k).queue =
      (if n₂ = 0 then [] else [k]) := by
  obtain ⟨m, rfl⟩ : ∃ m, n₁ = m + 1 := ⟨n₁ - 1, by omega⟩
  have hmem : k ∈ d0 ++ [k] := by simp
  have hadd : add ⟨[], d0, p0⟩ k = ⟨[k], d0 ++ [k], p0⟩ := by
    simp [add, hd, hp]
  have hs1 : addN ⟨[], d0, p0⟩ k (m + 1) = ⟨[k], d0 ++ [k], p0⟩ := by
    rw [addN, hadd]
    exact addN_of_mem_dirty _ k hmem m
  have hget : get ⟨[k], d0 ++ [k], p0⟩ = (some k, ⟨[], d0, p0 ++ [k]⟩) := by
    simp [get, removeKey_append, removeKey_of_not_mem d0 k hd, removeKey]
  cases n₂ with
  | zero =>
    refine ⟨by rw [hs1], by rw [hs1, hget], ?_, ?_, ?_⟩
    · rw [hs1, hget]
      rfl
    · rw [hs1, hget]
      simp [addN]
    · rw [hs1, hget]
      simp [addN, done, hd]
  | succ m2 =>
    have hadd2 : add ⟨[], d0, p0 ++ [k]⟩ k = ⟨[], d0 ++ [k], p0 ++ [k]⟩ := by
      simp [add, hd]
    have hs3 : addN ⟨[], d0, p0 ++ [k]⟩ k (m2 + 1) = ⟨[], d0 ++ [k], p0 ++ [k]⟩ := by
      rw [addN, hadd2]
      exact addN_of_mem_dirty _ k hmem m2
    refine ⟨by rw [hs1], by rw [hs1, hget], ?_, ?_, ?_⟩
    · rw [hs1, hget, hs3]
    · rw [hs1, hget, hs3]
      simp
    · rw [hs1, hget, hs3]
      simp [done, hmem]

/-- C9 witness: the dedup window at key `a`, a fresh queue, three adds before
the dequeue and two adds during processing. -/
theorem workqueue_dedup_window_witness :
    (addN ⟨[], [], []⟩ "a" 3).queue = ["a"] ∧
    (get (addN ⟨[], [], []⟩ "a" 3)).1 = some "a" ∧
    (addN (get (addN ⟨[], [], []⟩ "a" 3)).2 "a" 2).queue = [] ∧
    "a" ∈ (addN (get (addN ⟨[], [], []⟩ "a" 3)).2 "a" 2).processing ∧
    (done (addN (get (addN ⟨[], [], []⟩ "a" 3)).2 "a" 2) "a").queue =
      (if (2 : Nat) = 0 then ([] : List String) else ["a"]) :=
  workqueue_dedup_window "a" [] [] 3 2 (by simp) (by simp) (by omega)

end WorkQueue
